import Mathlib

/-!
Verification of the inventory-simulation core: a shallow embedding of the
event queue (CPython heapq on a list ordered by event time), the per-product
state machine, and the discrete-event engine, together with proofs of the
specified properties.  Randomness (interarrival times, demand draws, lead
times) is passed in explicitly as oracle inputs; Python floats are modelled
by rationals and the float infinity returned by an empty peek by the top
element of `WithTop Rat`.
-/

namespace InventorySim

/-- Event kinds of the simulation: customer arrivals and order arrivals. -/
inductive EventType where
  | customerArrival
  | orderArrival
deriving DecidableEq

/-- Payload of an order-arrival event: quantity ordered for each product (in
catalog order) and the total order cost. -/
structure OrderData where
  quantities : List ℤ
  cost : ℚ
deriving DecidableEq

/-- A simulation event: timestamp, kind and optional order payload (customer
arrivals carry no payload, matching the empty data dict in the source). -/
structure Event where
  time : ℚ
  etype : EventType
  data : Option OrderData
deriving DecidableEq

instance : Inhabited Event := ⟨⟨0, EventType.customerArrival, none⟩⟩

/-- CPython heapq `_siftdown`: move the freshly placed item at `pos` toward
the root, shifting larger parents down, and finally write the item.  The
fuel argument bounds the number of loop iterations; `fuel ≥ pos` suffices
because the position strictly decreases each round, and the zero-fuel base
coincides with the loop exit action. -/
def siftdownLoop : ℕ → List Event → Event → ℕ → ℕ → List Event
  | 0, heap, newitem, _, pos => heap.set pos newitem
  | fuel+1, heap, newitem, startpos, pos =>
    if startpos < pos then
      let parentpos := (pos - 1) / 2
      let parent := heap.getD parentpos default
      if newitem.time < parent.time then
        siftdownLoop fuel (heap.set pos parent) newitem startpos parentpos
      else heap.set pos newitem
    else heap.set pos newitem

/-- CPython heapq `_siftdown` entry point: the pending item is read at `pos`. -/
def siftdown (heap : List Event) (startpos pos : ℕ) : List Event :=
  siftdownLoop pos heap (heap.getD pos default) startpos pos

/-- CPython heapq `_siftup`: move the hole at `pos` down along the smaller
child until reaching a leaf, then place the pending item there and restore
with `_siftdown`.  `fuel ≥ endpos - pos` suffices since the position strictly
increases; the zero-fuel base coincides with the loop exit action. -/
def siftupLoop : ℕ → ℕ → ℕ → Event → List Event → ℕ → List Event
  | 0, _, startpos, newitem, heap, pos =>
      siftdownLoop pos (heap.set pos newitem) newitem startpos pos
  | fuel+1, endpos, startpos, newitem, heap, pos =>
    let childpos := 2*pos+1
    if childpos < endpos then
      let childpos2 :=
        if childpos + 1 < endpos ∧
            ¬ (heap.getD childpos default).time < (heap.getD (childpos+1) default).time
        then childpos + 1 else childpos
      siftupLoop fuel endpos startpos newitem
        (heap.set pos (heap.getD childpos2 default)) childpos2
    else
      siftdownLoop pos (heap.set pos newitem) newitem startpos pos

/-- CPython heapq `_siftup` entry point. -/
def siftup (heap : List Event) (pos : ℕ) : List Event :=
  siftupLoop heap.length heap.length pos (heap.getD pos default) heap pos

/-- CPython heapq `heappush`: append the item and sift it toward the root. -/
def heappush (heap : List Event) (item : Event) : List Event :=
  siftdown (heap ++ [item]) 0 heap.length

/-- CPython heapq `heappop`, wrapped in the `get_next_event` empty check of
the source: the empty queue yields the `None` sentinel instead of an error. -/
def heappop (heap : List Event) : Option (Event × List Event) :=
  match heap with
  | [] => none
  | x :: xs =>
    let lastelt := (x :: xs).getLast (List.cons_ne_nil x xs)
    match (x :: xs).dropLast with
    | [] => some (lastelt, [])
    | y :: ys => some (y, siftup ((y :: ys).set 0 lastelt) 0)

/-- EventQueue method add_event. -/
def addEvent (q : List Event) (e : Event) : List Event := heappush q e

/-- EventQueue method get_next_event: pops the minimum or returns the
sentinel on an empty queue. -/
def getNextEvent (q : List Event) : Option (Event × List Event) := heappop q

/-- EventQueue method peek_next_time: earliest time, or plus infinity for an
empty queue. -/
def peekNextTime (q : List Event) : WithTop ℚ :=
  match q with
  | [] => ⊤
  | x :: _ => (x.time : WithTop ℚ)

/-- Per-product append-only history, mirroring the history dict of the
Product class (list-valued traces plus the cumulative lost-revenue number). -/
structure ProductHistory where
  level : List ℤ
  total_benefit : List ℚ
  benefits : List ℚ
  loss_sales : List ℚ
  sin_inventario : List ℚ
  perdidas : ℚ
deriving DecidableEq

/-- Per-product configuration, as in config.ProductConfig with the
order_prices dict flattened into its three entries. -/
structure ProductConfig where
  initial_level : ℤ
  max_level : ℤ
  price : ℚ
  demand_sizes : List ℤ
  demand_prob : List ℚ
  order_prices_under : ℚ
  order_prices_above : ℚ
  order_prices_limit : ℤ
deriving DecidableEq

/-- Product state: inventory level, prices, demand distribution data and
history, as in models.Product. -/
structure Product where
  name : String
  level : ℤ
  max_level : ℤ
  price : ℚ
  demand_sizes : List ℤ
  demand_prob : List ℚ
  order_prices_under : ℚ
  order_prices_above : ℚ
  order_prices_limit : ℤ
  history : ProductHistory
deriving DecidableEq

/-- Product constructor from a ProductConfig. -/
def mkProduct (name : String) (c : ProductConfig) : Product :=
  { name := name
    level := c.initial_level
    max_level := c.max_level
    price := c.price
    demand_sizes := c.demand_sizes
    demand_prob := c.demand_prob
    order_prices_under := c.order_prices_under
    order_prices_above := c.order_prices_above
    order_prices_limit := c.order_prices_limit
    history :=
      { level := [c.initial_level]
        total_benefit := [0]
        benefits := []
        loss_sales := []
        sin_inventario := []
        perdidas := 0 } }

/-- Product.update_level: clamp the level at zero from below and append to
the level trace only when the value actually changed. -/
def updateLevel (p : Product) (change : ℤ) : Product :=
  let new_level := max 0 (p.level + change)
  let p1 := { p with level := new_level }
  if p1.history.level = [] ∨ p1.history.level.getLastD 0 ≠ new_level then
    { p1 with history := { p1.history with level := p1.history.level ++ [new_level] } }
  else p1

/-- Product.calculate_order_quantity: quantity needed to reach max level. -/
def calculateOrderQuantity (p : Product) : ℤ := p.max_level - p.level

/-- Product.get_order_price: tiered unit price for an order quantity. -/
def getOrderPrice (p : Product) (quantity : ℤ) : ℚ :=
  if quantity > p.order_prices_limit then p.order_prices_above
  else p.order_prices_under

/-- Simulation configuration, as in config.SimulationConfig with the
order_penalty dict flattened. -/
structure SimConfig where
  max_time : ℚ
  reorder_time : ℚ
  lambda_exp : ℚ
  mu_order : ℚ
  sigma_order : ℚ
  holding_cost : ℚ
  order_base_cost : ℚ
  order_penalty_percentage : ℚ
  order_penalty_time_base : ℚ
deriving DecidableEq

/-- Engine state: the fields of InventorySystem that the event loop reads
and writes.  Products are kept in catalog order in a list. -/
structure SimState where
  config : SimConfig
  products : List Product
  eventQueue : List Event
  time : ℚ
  beneficio : ℚ
  time_points : List ℚ
  order_times : List ℚ
  last_order_time : ℚ
  client_satisfied : ℕ
  client_not_satisfied : ℕ
  holding_total : ℚ
deriving DecidableEq

/-- InventorySystem constructor state. -/
def initState (config : SimConfig) (products_config : List (String × ProductConfig)) :
    SimState :=
  { config := config
    products := products_config.map (fun pc => mkProduct pc.1 pc.2)
    eventQueue := []
    time := 0
    beneficio := 0
    time_points := [0]
    order_times := []
    last_order_time := 0
    client_satisfied := 0
    client_not_satisfied := 0
    holding_total := 0 }

/-- Result of _satisfy_demand on one product: the updated product together
with the updated engine accumulators it mutates. -/
structure SatisfyOut where
  product : Product
  beneficio : ℚ
  client_satisfied : ℕ
deriving DecidableEq

/-- InventorySystem._satisfy_demand for one product. -/
def satisfyDemand (beneficio : ℚ) (client_satisfied : ℕ) (p : Product) (demand : ℤ) :
    SatisfyOut :=
  let p1 := updateLevel p (-demand)
  let benefit := (demand : ℚ) * p1.price
  let p2 := { p1 with history :=
    { p1.history with
      total_benefit := p1.history.total_benefit ++ [p1.history.total_benefit.getLastD 0 + benefit]
      benefits := p1.history.benefits ++ [benefit] } }
  { product := p2, beneficio := beneficio + benefit, client_satisfied := client_satisfied + 1 }

/-- Result of _handle_shortage on one product: the updated product together
with the updated engine accumulators it mutates. -/
structure ShortageOut where
  product : Product
  beneficio : ℚ
  client_not_satisfied : ℕ
deriving DecidableEq

/-- InventorySystem._handle_shortage for one product: the partial sale, the
lost-revenue accrual and the zeroing of the level happen only when some
stock remains; the stockout timestamp and the unsatisfied counter update in
every case. -/
def handleShortage (time beneficio : ℚ) (client_not_satisfied : ℕ)
    (p : Product) (demand : ℤ) : ShortageOut :=
  let current_level := p.level
  if 0 < current_level then
    let benefit := (current_level : ℚ) * p.price
    let p1 := { p with history :=
      { p.history with
        total_benefit := p.history.total_benefit ++ [p.history.total_benefit.getLastD 0 + benefit]
        benefits := p.history.benefits ++ [benefit] } }
    let lost_amount := ((demand - current_level : ℤ) : ℚ) * p1.price
    let p2 := { p1 with history :=
      { p1.history with
        perdidas := p1.history.perdidas + lost_amount
        loss_sales := p1.history.loss_sales ++ [p1.history.perdidas + lost_amount] } }
    let p3 := updateLevel p2 (-current_level)
    let p4 := { p3 with history :=
      { p3.history with sin_inventario := p3.history.sin_inventario ++ [time] } }
    { product := p4, beneficio := beneficio + benefit,
      client_not_satisfied := client_not_satisfied + 1 }
  else
    let p4 := { p with history :=
      { p.history with sin_inventario := p.history.sin_inventario ++ [time] } }
    { product := p4, beneficio := beneficio,
      client_not_satisfied := client_not_satisfied + 1 }

/-- Accumulated outcome of handling one customer arrival across the catalog. -/
structure ArrivalResult where
  products : List Product
  beneficio : ℚ
  client_satisfied : ℕ
  client_not_satisfied : ℕ
deriving DecidableEq

/-- The per-product loop of _handle_customer_arrival: each product draws its
own demand (supplied here as an oracle list, read positionally) and is
dispatched to _satisfy_demand or _handle_shortage. -/
def processDemands (time : ℚ) : List Product → List ℤ → ℚ → ℕ → ℕ → ArrivalResult
  | [], _, ben, sat, notsat => ⟨[], ben, sat, notsat⟩
  | p :: ps, ds, ben, sat, notsat =>
    let d := ds.headD 0
    if d ≤ p.level then
      let out := satisfyDemand ben sat p d
      let r := processDemands time ps ds.tail out.beneficio out.client_satisfied notsat
      ⟨out.product :: r.products, r.beneficio, r.client_satisfied, r.client_not_satisfied⟩
    else
      let out := handleShortage time ben notsat p d
      let r := processDemands time ps ds.tail out.beneficio sat out.client_not_satisfied
      ⟨out.product :: r.products, r.beneficio, r.client_satisfied, r.client_not_satisfied⟩

/-- InventorySystem._handle_customer_arrival: record the time point, process
each product's demand, then schedule the next arrival only when it falls
strictly before the horizon. -/
def handleCustomerArrival (s : SimState) (demands : List ℤ) (nextDelta : ℚ) : SimState :=
  let s1 := { s with time_points := s.time_points ++ [s.time] }
  let r := processDemands s1.time s1.products demands s1.beneficio
    s1.client_satisfied s1.client_not_satisfied
  let s2 := { s1 with
    products := r.products
    beneficio := r.beneficio
    client_satisfied := r.client_satisfied
    client_not_satisfied := r.client_not_satisfied }
  let next_arrival := s2.time + nextDelta
  if next_arrival < s2.config.max_time then
    { s2 with eventQueue :=
        addEvent s2.eventQueue ⟨next_arrival, EventType.customerArrival, none⟩ }
  else s2

/-- The pre-penalty total order cost of _place_periodic_order: base cost plus
quantity times tiered unit price summed over the catalog. -/
def rawOrderCost (config : SimConfig) (products : List Product) : ℚ :=
  config.order_base_cost +
    (products.map (fun p => (calculateOrderQuantity p : ℚ) * getOrderPrice p (calculateOrderQuantity p))).sum

/-- The order payload built by _place_periodic_order: order-up-to quantities
and the total cost after the lead-time penalty adjustment. -/
def buildOrderData (config : SimConfig) (products : List Product) (lead_time : ℚ) :
    OrderData :=
  let total_order_cost := rawOrderCost config products
  let total_order_cost2 :=
    if |lead_time - config.mu_order| > 3 then
      total_order_cost *
        (if lead_time > config.mu_order then 1 - config.order_penalty_percentage
         else 1 + config.order_penalty_percentage)
    else total_order_cost
  { quantities := products.map calculateOrderQuantity, cost := total_order_cost2 }

/-- InventorySystem._place_periodic_order: accrue the point-sample holding
cost, build the order payload, enqueue its arrival at `time + lead_time`
and record the order timestamp.  The lead time is an oracle input. -/
def placePeriodicOrder (s : SimState) (lead_time : ℚ) : SimState :=
  let holding := s.holding_total +
    (s.time - s.time_points.getLastD 0) * s.config.holding_cost *
      (s.products.map (fun p => (p.level : ℚ))).sum
  let delivery_time := s.time + lead_time
  let order_data := buildOrderData s.config s.products lead_time
  { s with
    last_order_time := s.time
    holding_total := holding
    eventQueue := addEvent s.eventQueue ⟨delivery_time, EventType.orderArrival, some order_data⟩
    order_times := s.order_times ++ [s.time] }

/-- The per-product loop of _handle_order_arrival: add each ordered quantity
to the matching product's level. -/
def applyQuantities : List Product → List ℤ → List Product
  | [], _ => []
  | p :: ps, qs => updateLevel p (qs.headD 0) :: applyQuantities ps qs.tail

/-- InventorySystem._handle_order_arrival: replenish levels from the payload
and record the time point. -/
def handleOrderArrival (s : SimState) (order_data : OrderData) : SimState :=
  { s with
    products := applyQuantities s.products order_data.quantities
    time_points := s.time_points ++ [s.time] }

/-- Oracle bundling the random draws consumed while processing one event:
per-product demand sizes, the next interarrival delta and the order lead
time. -/
structure Oracle where
  demands : List ℤ
  nextDelta : ℚ
  leadTime : ℚ

/-- The check for periodic order at the end of _process_next_event. -/
def reorderCheck (s : SimState) (lead_time : ℚ) : SimState :=
  if s.time - s.last_order_time ≥ s.config.reorder_time then
    placePeriodicOrder s lead_time
  else s

/-- InventorySystem._process_next_event: pop the earliest event, advance the
clock to its timestamp, dispatch to the matching handler, then run the
periodic-reorder check. -/
def processNextEvent (s : SimState) (o : Oracle) : SimState :=
  match getNextEvent s.eventQueue with
  | none => s
  | some (e, q) =>
    let s1 := { s with time := e.time, eventQueue := q }
    let s2 :=
      match e.etype with
      | EventType.customerArrival => handleCustomerArrival s1 o.demands o.nextDelta
      | EventType.orderArrival => handleOrderArrival s1 (e.data.getD ⟨[], 0⟩)
    reorderCheck s2 o.leadTime

/-- InventorySystem._simulation_active: the loop continues while the queue
is nonempty and its earliest time is strictly below the horizon. -/
def simulationActive (q : List Event) (max_time : ℚ) : Prop :=
  peekNextTime q ≠ ⊤ ∧ peekNextTime q < (max_time : WithTop ℚ)

instance (q : List Event) (m : ℚ) : Decidable (simulationActive q m) := by
  unfold simulationActive; infer_instance

/-- One guarded iteration of the run_simulation while loop. -/
def runStep (s : SimState) (o : Oracle) : SimState :=
  if simulationActive s.eventQueue s.config.max_time then processNextEvent s o else s

/-- InventorySystem._initialize_simulation: the sampled first interarrival
time is an oracle input; initialization fails (first component false, state
untouched) exactly when it exceeds the horizon, otherwise the first customer
arrival is enqueued. -/
def initializeSimulation (s : SimState) (first_arrival : ℚ) : Bool × SimState :=
  if first_arrival > s.config.max_time then (false, s)
  else (true,
    { s with eventQueue :=
        addEvent s.eventQueue ⟨first_arrival, EventType.customerArrival, none⟩ })

/-- Failure modes a Python run can surface while computing statistics. -/
inductive PyError where
  | zeroDivisionError
  | statisticsUndefined
deriving DecidableEq

/-- The statistics record returned by get_statistics. -/
structure Stats where
  total_profit : ℚ
  satisfied_customers_ratio : ℚ
  stockout_time : List (String × ℚ)
deriving DecidableEq

/-- Stockout percentage of one product: fraction of level-trace entries equal
to zero, as a percentage. -/
def stockoutPct (p : Product) : ℚ :=
  (((p.history.level.countP (fun l => decide (l = 0))) : ℚ) / (p.history.level.length : ℚ)) * 100

/-- InventorySystem.get_statistics: the satisfied ratio divides by the total
customer count, so with zero customers the Python code raises
ZeroDivisionError, modelled as the error branch; likewise the stockout
percentage divides by the length of the level trace. -/
def getStatistics (s : SimState) : Except PyError Stats :=
  if s.client_satisfied + s.client_not_satisfied = 0 then
    Except.error PyError.zeroDivisionError
  else if s.products.any (fun p => p.history.level.isEmpty) then
    Except.error PyError.zeroDivisionError
  else
    Except.ok
      { total_profit := s.beneficio
        satisfied_customers_ratio :=
          (s.client_satisfied : ℚ) / ((s.client_satisfied : ℚ) + (s.client_not_satisfied : ℚ))
        stockout_time := s.products.map (fun p => (p.name, stockoutPct p)) }

/-- Modelled from the spec: the statistics computation the specification
asks for, where a zero total customer count surfaces the distinct
StatisticsUndefined signal instead of a numeric division error.  Used only
to compare the specified error signal with the implemented one. -/
def getStatisticsSpec (s : SimState) : Except PyError Stats :=
  if s.client_satisfied + s.client_not_satisfied = 0 then
    Except.error PyError.statisticsUndefined
  else getStatistics s

/-- Time stored at index i of the heap list (default event out of range). -/
def timeAt (h : List Event) (i : ℕ) : ℚ := (h.getD i default).time

/-- The binary min-heap invariant maintained by heapq: every node is at
least its parent, comparing event times. -/
def HeapInv (h : List Event) : Prop :=
  ∀ i, 0 < i → i < h.length → timeAt h ((i-1)/2) ≤ timeAt h i

end InventorySim

namespace InventorySim

lemma getD_set_self {α : Type} [Inhabited α] (l : List α) (i : ℕ) (a : α)
    (hi : i < l.length) : (l.set i a).getD i default = a := by
  rw [List.getD_eq_getElem _ _ (by simpa using hi)]
  exact List.getElem_set_self _

lemma getD_set_ne {α : Type} [Inhabited α] (l : List α) {i j : ℕ} (a : α)
    (hij : i ≠ j) : (l.set i a).getD j default = l.getD j default := by
  rcases lt_or_le j l.length with h | h
  · rw [List.getD_eq_getElem _ _ (by simpa using h), List.getD_eq_getElem _ _ h]
    exact List.getElem_set_ne hij _
  · rw [List.getD_eq_default _ _ (by simpa using h), List.getD_eq_default _ _ h]

lemma timeAt_set_self (h : List Event) (i : ℕ) (a : Event) (hi : i < h.length) :
    timeAt (h.set i a) i = a.time := by
  unfold timeAt; rw [getD_set_self h i a hi]

lemma timeAt_set_ne (h : List Event) {i j : ℕ} (a : Event) (hij : i ≠ j) :
    timeAt (h.set i a) j = timeAt h j := by
  unfold timeAt; rw [getD_set_ne h a hij]

lemma getD_mem {α : Type} [Inhabited α] (l : List α) (i : ℕ) (hi : i < l.length) :
    l.getD i default ∈ l := by
  rw [List.getD_eq_getElem _ _ hi]; exact List.getElem_mem hi

lemma set_perm_cons (t : List Event) (m : ℕ) (hm : m < t.length) (w : Event) :
    List.Perm (t.getD m default :: t.set m w) (w :: t) := by
  induction t generalizing m with
  | nil => simp at hm
  | cons c u ih =>
    cases m with
    | zero => exact List.Perm.swap w c u
    | succ n =>
      have hn : n < u.length := by simpa using hm
      exact ((List.Perm.swap c _ _).trans ((ih n hn).cons c)).trans
        (List.Perm.swap w c u)

lemma set_swap_perm (t : List Event) (m : ℕ) (hm : m < t.length) (b w : Event) :
    List.Perm (w :: t.set m b) (b :: t.set m w) := by
  induction t generalizing m with
  | nil => simp at hm
  | cons c u ih =>
    cases m with
    | zero => exact List.Perm.swap b w u
    | succ n =>
      have hn : n < u.length := by simpa using hm
      exact ((List.Perm.swap c w _).trans ((ih n hn).cons c)).trans
        (List.Perm.swap b c _)

lemma set_set_perm (l : List Event) {i j : ℕ} (hi : i < l.length)
    (hj : j < l.length) (hij : i ≠ j) (w : Event) :
    List.Perm ((l.set i (l.getD j default)).set j w) (l.set i w) := by
  induction l generalizing i j with
  | nil => simp at hi
  | cons b t ih =>
    cases i with
    | zero =>
      cases j with
      | zero => exact absurd rfl hij
      | succ n =>
        have hn : n < t.length := by simpa using hj
        simp only [List.getD_cons_succ, List.set_cons_zero, List.set_cons_succ]
        exact set_perm_cons t n hn w
    | succ m =>
      cases j with
      | zero =>
        have hm : m < t.length := by simpa using hi
        simp only [List.getD_cons_zero, List.set_cons_succ, List.set_cons_zero]
        exact set_swap_perm t m hm b w
      | succ n =>
        have hm : m < t.length := by simpa using hi
        have hn : n < t.length := by simpa using hj
        have hmn : m ≠ n := by omega
        simp only [List.getD_cons_succ, List.set_cons_succ]
        exact (ih hm hn hmn).cons b

lemma siftdownLoop_succ (fuel : ℕ) (heap : List Event) (newitem : Event)
    (startpos pos : ℕ) :
    siftdownLoop (fuel+1) heap newitem startpos pos =
      if startpos < pos then
        (if newitem.time < (heap.getD ((pos-1)/2) default).time then
          siftdownLoop fuel (heap.set pos (heap.getD ((pos-1)/2) default))
            newitem startpos ((pos-1)/2)
        else heap.set pos newitem)
      else heap.set pos newitem := rfl

lemma set_newitem_inv (heap : List Event) (newitem : Event) (pos : ℕ)
    (hpos : pos < heap.length)
    (hi : ∀ j, 0 < j → j < heap.length → j ≠ pos → (j-1)/2 ≠ pos →
      timeAt heap ((j-1)/2) ≤ timeAt heap j)
    (hchild : ∀ j, 0 < j → j < heap.length → (j-1)/2 = pos → newitem.time ≤ timeAt heap j)
    (hparent : 0 < pos → timeAt heap ((pos-1)/2) ≤ newitem.time) :
    HeapInv (heap.set pos newitem) := by
  intro j hj0 hjlen
  rw [List.length_set] at hjlen
  by_cases hjp : j = pos
  · subst hjp
    have hppne : j ≠ (j-1)/2 := by omega
    rw [timeAt_set_ne heap newitem hppne, timeAt_set_self heap j newitem hjlen]
    exact hparent hj0
  · by_cases hpj : (j-1)/2 = pos
    · rw [timeAt_set_ne heap newitem (Ne.symm hjp), hpj,
        timeAt_set_self heap pos newitem hpos]
      exact hchild j hj0 hjlen hpj
    · rw [timeAt_set_ne heap newitem (Ne.symm hjp),
        timeAt_set_ne heap newitem (fun h => hpj h.symm)]
      exact hi j hj0 hjlen hjp hpj

lemma siftdownLoop_correct :
    ∀ (fuel : ℕ) (heap : List Event) (newitem : Event) (pos : ℕ),
      pos ≤ fuel → pos < heap.length →
      (∀ j, 0 < j → j < heap.length → j ≠ pos → (j-1)/2 ≠ pos →
        timeAt heap ((j-1)/2) ≤ timeAt heap j) →
      (∀ j, 0 < j → j < heap.length → (j-1)/2 = pos →
        (0 < pos → timeAt heap ((pos-1)/2) ≤ timeAt heap j) ∧
          newitem.time ≤ timeAt heap j) →
      HeapInv (siftdownLoop fuel heap newitem 0 pos) ∧
      (siftdownLoop fuel heap newitem 0 pos).length = heap.length ∧
      List.Perm (siftdownLoop fuel heap newitem 0 pos) (heap.set pos newitem) := by
  intro fuel
  induction fuel with
  | zero =>
    intro heap newitem pos hf hpos hi hc
    have hp0 : pos = 0 := by omega
    subst hp0
    exact ⟨set_newitem_inv heap newitem 0 hpos hi
        (fun j hj0 hjl hjp => (hc j hj0 hjl hjp).2)
        (fun h0 => absurd h0 (lt_irrefl 0)),
      List.length_set _ _ _, List.Perm.refl _⟩
  | succ fuel ih =>
    intro heap newitem pos hf hpos hi hc
    rw [siftdownLoop_succ]
    by_cases hp : 0 < pos
    · rw [if_pos hp]
      by_cases hlt : newitem.time < (heap.getD ((pos-1)/2) default).time
      · rw [if_pos hlt]
        have hpplt : (pos-1)/2 < pos := by omega
        have hpplen : (pos-1)/2 < (heap.set pos (heap.getD ((pos-1)/2) default)).length := by
          rw [List.length_set]; omega
        have hppne : pos ≠ (pos-1)/2 := by omega
        have hparent_eq : timeAt heap ((pos-1)/2) = (heap.getD ((pos-1)/2) default).time := rfl
        have hi2 : ∀ j, 0 < j → j < (heap.set pos (heap.getD ((pos-1)/2) default)).length →
            j ≠ (pos-1)/2 → (j-1)/2 ≠ (pos-1)/2 →
            timeAt (heap.set pos (heap.getD ((pos-1)/2) default)) ((j-1)/2) ≤
              timeAt (heap.set pos (heap.getD ((pos-1)/2) default)) j := by
          intro j hj0 hjlen hjpp hpjpp
          rw [List.length_set] at hjlen
          by_cases hjpos : j = pos
          · exact absurd (by rw [hjpos]) hpjpp
          · by_cases hpjpos : (j-1)/2 = pos
            · rw [timeAt_set_ne heap _ (Ne.symm hjpos), hpjpos,
                timeAt_set_self heap pos _ hpos]
              rw [← hparent_eq]
              exact (hc j hj0 hjlen hpjpos).1 hp
            · rw [timeAt_set_ne heap _ (Ne.symm hjpos),
                timeAt_set_ne heap _ (fun h => hpjpos h.symm)]
              exact hi j hj0 hjlen hjpos hpjpos
        have hc2 : ∀ j, 0 < j → j < (heap.set pos (heap.getD ((pos-1)/2) default)).length →
            (j-1)/2 = (pos-1)/2 →
            (0 < (pos-1)/2 →
              timeAt (heap.set pos (heap.getD ((pos-1)/2) default)) (((pos-1)/2-1)/2) ≤
                timeAt (heap.set pos (heap.getD ((pos-1)/2) default)) j) ∧
              newitem.time ≤ timeAt (heap.set pos (heap.getD ((pos-1)/2) default)) j := by
          intro j hj0 hjlen hpj
          rw [List.length_set] at hjlen
          have hpp2ne : ((pos-1)/2-1)/2 ≠ pos := by omega
          have hgrand : 0 < (pos-1)/2 →
              timeAt heap (((pos-1)/2-1)/2) ≤ timeAt heap ((pos-1)/2) := by
            intro hpp0
            exact hi ((pos-1)/2) hpp0 (lt_trans hpplt hpos) (Ne.symm hppne)
              (by omega)
          by_cases hjpos : j = pos
          · subst hjpos
            rw [timeAt_set_self heap j _ hpos]
            refine ⟨?_, le_of_lt hlt⟩
            intro hpp0
            rw [timeAt_set_ne heap _ (by omega : j ≠ ((j-1)/2-1)/2)]
            rw [← hparent_eq]
            exact hgrand hpp0
          · rw [timeAt_set_ne heap _ (Ne.symm hjpos)]
            have hj_ge : timeAt heap ((pos-1)/2) ≤ timeAt heap j := by
              have hji := hi j hj0 hjlen hjpos (by omega)
              rwa [hpj] at hji
            refine ⟨?_, le_trans (le_of_lt (by rw [hparent_eq]; exact hlt)) hj_ge⟩
            intro hpp0
            rw [timeAt_set_ne heap _ (fun h => hpp2ne h.symm)]
            exact le_trans (hgrand hpp0) hj_ge
        obtain ⟨k1, k2, k3⟩ := ih (heap.set pos (heap.getD ((pos-1)/2) default))
          newitem ((pos-1)/2) (by omega) hpplen hi2 hc2
        refine ⟨k1, ?_, ?_⟩
        · rw [k2, List.length_set]
        · refine k3.trans ?_
          exact set_set_perm heap hpos (lt_trans hpplt hpos) (Ne.symm hppne.symm) newitem
      · rw [if_neg hlt]
        refine ⟨set_newitem_inv heap newitem pos hpos hi
            (fun j hj0 hjl hjp => (hc j hj0 hjl hjp).2)
            (fun _ => le_of_not_lt hlt), List.length_set _ _ _, List.Perm.refl _⟩
    · rw [if_neg hp]
      refine ⟨set_newitem_inv heap newitem pos hpos hi
          (fun j hj0 hjl hjp => (hc j hj0 hjl hjp).2)
          (fun h0 => absurd h0 hp), List.length_set _ _ _, List.Perm.refl _⟩

lemma timeAt_append (heap l2 : List Event) (k : ℕ) (hk : k < heap.length) :
    timeAt (heap ++ l2) k = timeAt heap k := by
  unfold timeAt
  rw [List.getD_eq_getElem _ _ (by simp; omega), List.getD_eq_getElem _ _ hk]
  rw [List.getElem_append_left hk]

lemma set_concat_self (l : List Event) (a : Event) :
    (l ++ [a]).set l.length a = l ++ [a] := by
  simp

lemma heappush_correct (heap : List Event) (item : Event) (hh : HeapInv heap) :
    HeapInv (heappush heap item) ∧ (heappush heap item).length = heap.length + 1 ∧
    List.Perm (heappush heap item) (item :: heap) := by
  unfold heappush siftdown
  have hgetD : (heap ++ [item]).getD heap.length default = item := by
    rw [List.getD_eq_getElem _ _ (by simp)]
    exact List.getElem_concat_length heap item _ rfl _
  rw [hgetD]
  have hi : ∀ j, 0 < j → j < (heap ++ [item]).length → j ≠ heap.length →
      (j-1)/2 ≠ heap.length →
      timeAt (heap ++ [item]) ((j-1)/2) ≤ timeAt (heap ++ [item]) j := by
    intro j hj0 hjl hjne _
    rw [List.length_append, List.length_cons, List.length_nil] at hjl
    have hjlt : j < heap.length := by omega
    rw [timeAt_append heap [item] _ (by omega), timeAt_append heap [item] _ hjlt]
    exact hh j hj0 hjlt
  have hc : ∀ j, 0 < j → j < (heap ++ [item]).length → (j-1)/2 = heap.length →
      (0 < heap.length →
        timeAt (heap ++ [item]) ((heap.length-1)/2) ≤ timeAt (heap ++ [item]) j) ∧
        item.time ≤ timeAt (heap ++ [item]) j := by
    intro j hj0 hjl hpj
    rw [List.length_append, List.length_cons, List.length_nil] at hjl
    exact absurd hpj (by omega)
  obtain ⟨k1, k2, k3⟩ := siftdownLoop_correct heap.length (heap ++ [item]) item
    heap.length (le_refl _) (by simp) hi hc
  refine ⟨k1, by rw [k2]; simp, ?_⟩
  rw [set_concat_self] at k3
  exact k3.trans (List.perm_append_singleton item heap)

lemma siftupLoop_succ (fuel endpos startpos : ℕ) (newitem : Event)
    (heap : List Event) (pos : ℕ) :
    siftupLoop (fuel+1) endpos startpos newitem heap pos =
      if 2*pos+1 < endpos then
        siftupLoop fuel endpos startpos newitem
          (heap.set pos (heap.getD
            (if 2*pos+1+1 < endpos ∧
                ¬ (heap.getD (2*pos+1) default).time < (heap.getD (2*pos+1+1) default).time
             then 2*pos+1+1 else 2*pos+1) default))
          (if 2*pos+1+1 < endpos ∧
              ¬ (heap.getD (2*pos+1) default).time < (heap.getD (2*pos+1+1) default).time
           then 2*pos+1+1 else 2*pos+1)
      else siftdownLoop pos (heap.set pos newitem) newitem startpos pos := rfl

lemma siftupLoop_correct :
    ∀ (fuel : ℕ) (heap : List Event) (newitem : Event) (pos : ℕ),
      heap.length ≤ fuel + pos → pos < heap.length →
      (∀ j, 0 < j → j < heap.length → j ≠ pos → (j-1)/2 ≠ pos →
        timeAt heap ((j-1)/2) ≤ timeAt heap j) →
      (∀ j, 0 < j → j < heap.length → (j-1)/2 = pos → 0 < pos →
        timeAt heap ((pos-1)/2) ≤ timeAt heap j) →
      HeapInv (siftupLoop fuel heap.length 0 newitem heap pos) ∧
      (siftupLoop fuel heap.length 0 newitem heap pos).length = heap.length ∧
      List.Perm (siftupLoop fuel heap.length 0 newitem heap pos) (heap.set pos newitem) := by
  intro fuel
  induction fuel with
  | zero =>
    intro heap newitem pos hf hpos hi hc
    exact absurd hpos (by omega)
  | succ fuel ih =>
    intro heap newitem pos hf hpos hi hc
    rw [siftupLoop_succ]
    by_cases hch : 2*pos+1 < heap.length
    · rw [if_pos hch]
      have main : ∀ c, (c-1)/2 = pos → pos < c → c < heap.length →
          (∀ j, 0 < j → j < heap.length → (j-1)/2 = pos →
            timeAt heap c ≤ timeAt heap j) →
          HeapInv (siftupLoop fuel heap.length 0 newitem
            (heap.set pos (heap.getD c default)) c) ∧
          (siftupLoop fuel heap.length 0 newitem
            (heap.set pos (heap.getD c default)) c).length = heap.length ∧
          List.Perm (siftupLoop fuel heap.length 0 newitem
            (heap.set pos (heap.getD c default)) c) (heap.set pos newitem) := by
        intro c hcpar hposc hclt hcmin
        have hlen2 : (heap.set pos (heap.getD c default)).length = heap.length :=
          List.length_set _ _ _
        have hi2 : ∀ j, 0 < j → j < (heap.set pos (heap.getD c default)).length →
            j ≠ c → (j-1)/2 ≠ c →
            timeAt (heap.set pos (heap.getD c default)) ((j-1)/2) ≤
              timeAt (heap.set pos (heap.getD c default)) j := by
          intro j hj0 hjl hjc hpjc
          rw [hlen2] at hjl
          by_cases hjpos : j = pos
          · subst hjpos
            rw [timeAt_set_ne heap _ (by omega : j ≠ (j-1)/2),
              timeAt_set_self heap j _ hpos]
            exact hc c (by omega) hclt hcpar hj0
          · by_cases hpjpos : (j-1)/2 = pos
            · rw [timeAt_set_ne heap _ (Ne.symm hjpos), hpjpos,
                timeAt_set_self heap pos _ hpos]
              exact hcmin j hj0 hjl hpjpos
            · rw [timeAt_set_ne heap _ (Ne.symm hjpos),
                timeAt_set_ne heap _ (fun h => hpjpos h.symm)]
              exact hi j hj0 hjl hjpos hpjpos
        have hc2 : ∀ j, 0 < j → j < (heap.set pos (heap.getD c default)).length →
            (j-1)/2 = c → 0 < c →
            timeAt (heap.set pos (heap.getD c default)) ((c-1)/2) ≤
              timeAt (heap.set pos (heap.getD c default)) j := by
          intro j hj0 hjl hpj _
          rw [hlen2] at hjl
          have hjc : j ≠ c := by omega
          have hjpos : j ≠ pos := by omega
          rw [hcpar, timeAt_set_self heap pos _ hpos,
            timeAt_set_ne heap _ (Ne.symm hjpos)]
          have hji := hi j hj0 hjl hjpos (by omega)
          rwa [hpj] at hji
        obtain ⟨k1, k2, k3⟩ := ih (heap.set pos (heap.getD c default)) newitem c
          (by rw [hlen2]; omega) (by rw [hlen2]; exact hclt) hi2 hc2
        rw [hlen2] at k1 k2 k3
        exact ⟨k1, k2, k3.trans
          (set_set_perm heap hpos hclt (by omega) newitem)⟩
      by_cases hrt : 2*pos+1+1 < heap.length ∧
          ¬ (heap.getD (2*pos+1) default).time < (heap.getD (2*pos+1+1) default).time
      · rw [if_pos hrt]
        refine main (2*pos+1+1) (by omega) (by omega) hrt.1 ?_
        intro j hj0 hjl hpj
        have hj12 : j = 2*pos+1 ∨ j = 2*pos+1+1 := by omega
        rcases hj12 with rfl | rfl
        · exact le_of_not_lt hrt.2
        · exact le_refl _
      · rw [if_neg hrt]
        refine main (2*pos+1) (by omega) (by omega) hch ?_
        intro j hj0 hjl hpj
        have hj12 : j = 2*pos+1 ∨ j = 2*pos+1+1 := by omega
        push_neg at hrt
        rcases hj12 with rfl | rfl
        · exact le_refl _
        · exact le_of_lt (hrt hjl)
    · rw [if_neg hch]
      have hi2 : ∀ j, 0 < j → j < (heap.set pos newitem).length → j ≠ pos →
          (j-1)/2 ≠ pos →
          timeAt (heap.set pos newitem) ((j-1)/2) ≤ timeAt (heap.set pos newitem) j := by
        intro j hj0 hjl hjpos hpjpos
        rw [List.length_set] at hjl
        rw [timeAt_set_ne heap _ (Ne.symm hjpos),
          timeAt_set_ne heap _ (fun h => hpjpos h.symm)]
        exact hi j hj0 hjl hjpos hpjpos
      have hc2 : ∀ j, 0 < j → j < (heap.set pos newitem).length → (j-1)/2 = pos →
          (0 < pos → timeAt (heap.set pos newitem) ((pos-1)/2) ≤
            timeAt (heap.set pos newitem) j) ∧
            newitem.time ≤ timeAt (heap.set pos newitem) j := by
        intro j hj0 hjl hpj
        rw [List.length_set] at hjl
        exact absurd hpj (by omega)
      obtain ⟨k1, k2, k3⟩ := siftdownLoop_correct pos (heap.set pos newitem) newitem
        pos (le_refl _) (by rw [List.length_set]; exact hpos) hi2 hc2
      rw [List.set_set] at k3
      exact ⟨k1, by rw [k2, List.length_set], k3⟩

lemma heapInv_root_le (h : List Event) (hh : HeapInv h) :
    ∀ i, i < h.length → timeAt h 0 ≤ timeAt h i := by
  intro i
  induction i using Nat.strong_induction_on with
  | _ i ih =>
    intro hi
    rcases Nat.eq_zero_or_pos i with rfl | hpos
    · exact le_refl _
    · have hpar : (i-1)/2 < i := by omega
      exact le_trans (ih ((i-1)/2) hpar (lt_trans hpar hi)) (hh i hpos hi)

lemma timeAt_pop_aux (x lastelt : Event) (t : List Event) (k : ℕ) (h1 : 0 < k)
    (hk : k < (lastelt :: t.dropLast).length) :
    timeAt (lastelt :: t.dropLast) k = timeAt (x :: t) k := by
  obtain ⟨m, rfl⟩ : ∃ m, k = m + 1 := ⟨k - 1, by omega⟩
  have hm : m < t.length - 1 := by
    simp only [List.length_cons, List.length_dropLast] at hk; omega
  unfold timeAt
  rw [List.getD_cons_succ, List.getD_cons_succ,
    List.getD_eq_getElem _ _ (by simp [List.length_dropLast]; omega),
    List.getD_eq_getElem _ _ (by omega)]
  rw [List.getElem_dropLast]

lemma heappop_cons_cons (x z : Event) (zs : List Event) :
    heappop (x :: z :: zs) =
      some (x, siftup (((x :: z :: zs).getLast (List.cons_ne_nil _ _) ::
        (z :: zs).dropLast)) 0) := rfl

lemma heappop_correct (x : Event) (xs : List Event) (hh : HeapInv (x :: xs)) :
    ∃ q, heappop (x :: xs) = some (x, q) ∧ HeapInv q ∧
      List.Perm (x :: xs) (x :: q) ∧ q.length = xs.length := by
  cases xs with
  | nil =>
    refine ⟨[], rfl, ?_, List.Perm.refl _, rfl⟩
    intro i h1 h2
    simp at h2
  | cons z zs =>
    rw [heappop_cons_cons]
    set lastelt := (x :: z :: zs).getLast (List.cons_ne_nil _ _) with hlast
    have hAlen : (lastelt :: (z :: zs).dropLast).length = zs.length + 1 := by
      simp [List.length_dropLast]
    have hsift : siftup (lastelt :: (z :: zs).dropLast) 0 =
        siftupLoop (lastelt :: (z :: zs).dropLast).length
          (lastelt :: (z :: zs).dropLast).length 0 lastelt
          (lastelt :: (z :: zs).dropLast) 0 := rfl
    have hi : ∀ j, 0 < j → j < (lastelt :: (z :: zs).dropLast).length → j ≠ 0 →
        (j-1)/2 ≠ 0 →
        timeAt (lastelt :: (z :: zs).dropLast) ((j-1)/2) ≤
          timeAt (lastelt :: (z :: zs).dropLast) j := by
      intro j hj0 hjl _ hpj0
      have hx := timeAt_pop_aux x lastelt (z :: zs) j hj0 hjl
      have hxp := timeAt_pop_aux x lastelt (z :: zs) ((j-1)/2) (by omega) (by omega)
      rw [hx, hxp]
      exact hh j hj0 (by rw [hAlen] at hjl; simp only [List.length_cons]; omega)
    have hc : ∀ j, 0 < j → j < (lastelt :: (z :: zs).dropLast).length →
        (j-1)/2 = 0 → 0 < 0 →
        timeAt (lastelt :: (z :: zs).dropLast) ((0-1)/2) ≤
          timeAt (lastelt :: (z :: zs).dropLast) j := by
      intro j _ _ _ h00
      exact absurd h00 (lt_irrefl 0)
    obtain ⟨k1, k2, k3⟩ := siftupLoop_correct (lastelt :: (z :: zs).dropLast).length
      (lastelt :: (z :: zs).dropLast) lastelt 0 (by omega) (by simp) hi hc
    rw [← hsift] at k1 k2 k3
    have hset : (lastelt :: (z :: zs).dropLast).set 0 lastelt =
        lastelt :: (z :: zs).dropLast := rfl
    rw [hset] at k3
    refine ⟨siftup (lastelt :: (z :: zs).dropLast) 0, rfl, k1, ?_,
      by rw [k2, hAlen]; simp⟩
    have hzs : List.Perm (z :: zs) (lastelt :: (z :: zs).dropLast) := by
      have hne : (z :: zs) ≠ [] := List.cons_ne_nil _ _
      have hlast2 : lastelt = (z :: zs).getLast hne := by
        rw [hlast]; exact List.getLast_cons hne
      have hperm1 := List.perm_append_singleton lastelt ((z :: zs).dropLast)
      have hdecomp : (z :: zs).dropLast ++ [lastelt] = z :: zs := by
        rw [hlast2]; exact List.dropLast_append_getLast hne
      rw [hdecomp] at hperm1
      exact hperm1
    exact (hzs.cons x).trans ((k3.cons x).symm)

lemma heappop_min (heap : List Event) (hh : HeapInv heap) (e : Event)
    (q : List Event) (hp : heappop heap = some (e, q)) :
    (∀ y ∈ heap, e.time ≤ y.time) ∧ HeapInv q ∧ List.Perm heap (e :: q) := by
  cases heap with
  | nil => exact absurd hp (by simp [heappop])
  | cons x xs =>
    obtain ⟨q0, hq0, hinv, hperm, _⟩ := heappop_correct x xs hh
    rw [hq0] at hp
    have hpair := Option.some.inj hp
    have he : e = x := (congrArg Prod.fst hpair).symm
    have hq : q = q0 := (congrArg Prod.snd hpair).symm
    rw [he, hq]
    refine ⟨?_, hinv, hperm⟩
    intro y hy
    obtain ⟨i, hi2, rfl⟩ := List.mem_iff_getElem.1 hy
    have hroot := heapInv_root_le (x :: xs) hh i hi2
    unfold timeAt at hroot
    rw [List.getD_eq_getElem _ _ hi2, List.getD_eq_getElem _ _ (by simp)] at hroot
    simpa using hroot

lemma foldl_heappush_correct : ∀ (xs h : List Event), HeapInv h →
    HeapInv (xs.foldl heappush h) ∧ List.Perm (xs.foldl heappush h) (xs ++ h) := by
  intro xs
  induction xs with
  | nil => intro h hh; exact ⟨hh, by simp⟩
  | cons e t ih =>
    intro h hh
    obtain ⟨p1, _, p3⟩ := heappush_correct h e hh
    obtain ⟨q1, q2⟩ := ih (heappush h e) p1
    refine ⟨q1, ?_⟩
    refine (q2.trans (p3.append_left t)).trans ?_
    exact List.perm_middle

lemma heappop_fst (x : Event) (xs : List Event) (e : Event) (q : List Event)
    (hp : heappop (x :: xs) = some (e, q)) : e = x := by
  cases xs with
  | nil =>
    have hpe : heappop [x] = some (x, []) := rfl
    rw [hpe] at hp
    exact (congrArg Prod.fst (Option.some.inj hp)).symm
  | cons z zs =>
    rw [heappop_cons_cons] at hp
    exact (congrArg Prod.fst (Option.some.inj hp)).symm

lemma getLastD_concat (l : List ℚ) (a d : ℚ) : (l ++ [a]).getLastD d = a := by
  simp

lemma handleCustomerArrival_fields (s : SimState) (ds : List ℤ) (delta : ℚ) :
    (handleCustomerArrival s ds delta).time = s.time ∧
    (handleCustomerArrival s ds delta).config = s.config ∧
    (handleCustomerArrival s ds delta).holding_total = s.holding_total ∧
    (handleCustomerArrival s ds delta).last_order_time = s.last_order_time ∧
    (handleCustomerArrival s ds delta).time_points = s.time_points ++ [s.time] := by
  unfold handleCustomerArrival
  by_cases h : s.time + delta < s.config.max_time <;> simp [h]

lemma handleOrderArrival_fields (s : SimState) (od : OrderData) :
    (handleOrderArrival s od).time = s.time ∧
    (handleOrderArrival s od).config = s.config ∧
    (handleOrderArrival s od).holding_total = s.holding_total ∧
    (handleOrderArrival s od).last_order_time = s.last_order_time ∧
    (handleOrderArrival s od).beneficio = s.beneficio ∧
    (handleOrderArrival s od).time_points = s.time_points ++ [s.time] := by
  unfold handleOrderArrival
  exact ⟨rfl, rfl, rfl, rfl, rfl, rfl⟩

lemma placePeriodicOrder_holding (s : SimState) (lt : ℚ) :
    (placePeriodicOrder s lt).holding_total = s.holding_total +
      (s.time - s.time_points.getLastD 0) * s.config.holding_cost *
        (s.products.map (fun p => (p.level : ℚ))).sum := rfl

lemma reorderCheck_holding (s : SimState) (lt : ℚ)
    (h : s.time_points.getLastD 0 = s.time) :
    (reorderCheck s lt).holding_total = s.holding_total := by
  unfold reorderCheck
  by_cases hcond : s.time - s.last_order_time ≥ s.config.reorder_time
  · rw [if_pos hcond, placePeriodicOrder_holding, h, sub_self, zero_mul, zero_mul,
      add_zero]
  · rw [if_neg hcond]

lemma processNextEvent_holding (s : SimState) (o : Oracle) :
    (processNextEvent s o).holding_total = s.holding_total := by
  unfold processNextEvent
  cases hpop : getNextEvent s.eventQueue with
  | none => rfl
  | some p =>
    obtain ⟨e, q⟩ := p
    obtain ⟨et, ety, ed⟩ := e
    cases ety with
    | customerArrival =>
      have hf := handleCustomerArrival_fields
        { s with time := et, eventQueue := q } o.demands o.nextDelta
      rw [reorderCheck_holding _ _ (by rw [hf.2.2.2.2, hf.1]; exact getLastD_concat _ _ _)]
      exact hf.2.2.1
    | orderArrival =>
      have hf := handleOrderArrival_fields
        { s with time := et, eventQueue := q } (ed.getD ⟨[], 0⟩)
      rw [reorderCheck_holding _ _ (by rw [hf.2.2.2.2.2, hf.1]; exact getLastD_concat _ _ _)]
      exact hf.2.2.1

lemma runStep_holding (s : SimState) (o : Oracle) :
    (runStep s o).holding_total = s.holding_total := by
  unfold runStep
  by_cases h : simulationActive s.eventQueue s.config.max_time
  · rw [if_pos h]; exact processNextEvent_holding s o
  · rw [if_neg h]

lemma foldl_runStep_holding : ∀ (os : List Oracle) (s : SimState),
    (os.foldl runStep s).holding_total = s.holding_total := by
  intro os
  induction os with
  | nil => intro s; rfl
  | cons o t ih =>
    intro s
    rw [List.foldl_cons, ih (runStep s o), runStep_holding]

lemma initializeSimulation_holding (s : SimState) (fa : ℚ) :
    (initializeSimulation s fa).2.holding_total = s.holding_total := by
  unfold initializeSimulation
  by_cases h : fa > s.config.max_time
  · rw [if_pos h]
  · rw [if_neg h]

lemma updateLevel_level (p : Product) (c : ℤ) :
    (updateLevel p c).level = max 0 (p.level + c) := by
  unfold updateLevel
  dsimp only
  split <;> rfl

lemma updateLevel_frame (p : Product) (c : ℤ) :
    (updateLevel p c).history.sin_inventario = p.history.sin_inventario ∧
    (updateLevel p c).history.perdidas = p.history.perdidas ∧
    (updateLevel p c).history.total_benefit = p.history.total_benefit ∧
    (updateLevel p c).history.benefits = p.history.benefits ∧
    (updateLevel p c).history.loss_sales = p.history.loss_sales ∧
    (updateLevel p c).price = p.price ∧
    (updateLevel p c).max_level = p.max_level := by
  unfold updateLevel
  dsimp only
  split <;> exact ⟨rfl, rfl, rfl, rfl, rfl, rfl, rfl⟩

lemma foldl_updateLevel_nonneg : ∀ (ds : List ℤ) (q : Product), 0 ≤ q.level →
    0 ≤ (ds.foldl updateLevel q).level := by
  intro ds
  induction ds with
  | nil => intro q hq; exact hq
  | cons d t ih =>
    intro q _
    rw [List.foldl_cons]
    exact ih (updateLevel q d) (by rw [updateLevel_level]; exact le_max_left 0 _)

/-- C8: Product.level is never negative after any sequence of update_level
calls with arbitrary integer deltas: each call sets the level to
max(0, level + delta), so the level stays nonnegative after one call and
after any further sequence of calls. -/
theorem level_never_negative (p : Product) (d : ℤ) (ds : List ℤ) :
    (updateLevel p d).level = max 0 (p.level + d) ∧
    0 ≤ (updateLevel p d).level ∧
    0 ≤ (ds.foldl updateLevel (updateLevel p d)).level := by
  refine ⟨updateLevel_level p d, ?_, ?_⟩
  · rw [updateLevel_level]; exact le_max_left 0 _
  · exact foldl_updateLevel_nonneg ds _ (by rw [updateLevel_level]; exact le_max_left 0 _)

/-- C9: calculate_order_quantity returns exactly max_level minus the level at
call time, and get_order_price returns the above-threshold price exactly on
quantities strictly above the threshold and the below price otherwise; both
are pure functions of the product value. -/
theorem order_quantity_price_spec (p : Product) (q : ℤ) :
    calculateOrderQuantity p = p.max_level - p.level ∧
    (p.order_prices_limit < q → getOrderPrice p q = p.order_prices_above) ∧
    (q ≤ p.order_prices_limit → getOrderPrice p q = p.order_prices_under) ∧
    (p.order_prices_above ≠ p.order_prices_under →
      (getOrderPrice p q = p.order_prices_above ↔ p.order_prices_limit < q)) := by
  refine ⟨rfl, ?_, ?_, ?_⟩
  · intro h; unfold getOrderPrice; rw [if_pos h]
  · intro h; unfold getOrderPrice; rw [if_neg (not_lt.2 h)]
  · intro hne
    constructor
    · intro heq
      by_contra hq
      unfold getOrderPrice at heq
      rw [if_neg hq] at heq
      exact hne heq.symm
    · intro h; unfold getOrderPrice; rw [if_pos h]

/-- C9 witness: the tier function evaluated on both sides of the concrete
threshold 600. -/
theorem order_quantity_price_spec_witness :
    getOrderPrice (mkProduct "prod1"
      ⟨70, 1000, 2, [1, 2, 3, 4], [1, 1, 1, 1], 1, 2, 600⟩) 601 =
      (mkProduct "prod1"
      ⟨70, 1000, 2, [1, 2, 3, 4], [1, 1, 1, 1], 1, 2, 600⟩).order_prices_above ∧
    getOrderPrice (mkProduct "prod1"
      ⟨70, 1000, 2, [1, 2, 3, 4], [1, 1, 1, 1], 1, 2, 600⟩) 600 =
      (mkProduct "prod1"
      ⟨70, 1000, 2, [1, 2, 3, 4], [1, 1, 1, 1], 1, 2, 600⟩).order_prices_under ∧
    (getOrderPrice (mkProduct "prod1"
      ⟨70, 1000, 2, [1, 2, 3, 4], [1, 1, 1, 1], 1, 2, 600⟩) 601 =
      (mkProduct "prod1"
      ⟨70, 1000, 2, [1, 2, 3, 4], [1, 1, 1, 1], 1, 2, 600⟩).order_prices_above ↔
      (mkProduct "prod1"
      ⟨70, 1000, 2, [1, 2, 3, 4], [1, 1, 1, 1], 1, 2, 600⟩).order_prices_limit < 601) :=
  ⟨(order_quantity_price_spec (mkProduct "prod1"
      ⟨70, 1000, 2, [1, 2, 3, 4], [1, 1, 1, 1], 1, 2, 600⟩) 601).2.1
      (by decide),
   (order_quantity_price_spec (mkProduct "prod1"
      ⟨70, 1000, 2, [1, 2, 3, 4], [1, 1, 1, 1], 1, 2, 600⟩) 600).2.2.1
      (by decide),
   (order_quantity_price_spec (mkProduct "prod1"
      ⟨70, 1000, 2, [1, 2, 3, 4], [1, 1, 1, 1], 1, 2, 600⟩) 601).2.2.2
      (by decide)⟩

/-- C5: the multiplicative penalty factor on the total order cost equals
1 - penalty_percentage for a late lead time beyond the fixed threshold 3,
1 + penalty_percentage for an early lead time beyond the threshold, and 1
when the deviation from the mean lead time is within the threshold. -/
theorem penalty_factor_spec (config : SimConfig) (products : List Product)
    (lt : ℚ) :
    (|lt - config.mu_order| ≤ 3 →
      (buildOrderData config products lt).cost = rawOrderCost config products) ∧
    (3 < |lt - config.mu_order| → config.mu_order < lt →
      (buildOrderData config products lt).cost =
        rawOrderCost config products * (1 - config.order_penalty_percentage)) ∧
    (3 < |lt - config.mu_order| → lt < config.mu_order →
      (buildOrderData config products lt).cost =
        rawOrderCost config products * (1 + config.order_penalty_percentage)) := by
  unfold buildOrderData
  dsimp only
  refine ⟨?_, ?_, ?_⟩
  · intro h; rw [if_neg (not_lt.2 h)]
  · intro h1 h2; rw [if_pos h1, if_pos h2]
  · intro h1 h2; rw [if_pos h1, if_neg (not_lt.2 (le_of_lt h2))]

/-- C5 witness: the three penalty cases at mean lead time 48 with lead times
49, 52 and 44. -/
theorem penalty_factor_spec_witness :
    (buildOrderData ⟨240, 168, 2, 48, 4, 1, 100, 3, 48⟩ [] 49).cost =
      rawOrderCost ⟨240, 168, 2, 48, 4, 1, 100, 3, 48⟩ [] ∧
    (buildOrderData ⟨240, 168, 2, 48, 4, 1, 100, 3, 48⟩ [] 52).cost =
      rawOrderCost ⟨240, 168, 2, 48, 4, 1, 100, 3, 48⟩ [] * (1 - 3) ∧
    (buildOrderData ⟨240, 168, 2, 48, 4, 1, 100, 3, 48⟩ [] 44).cost =
      rawOrderCost ⟨240, 168, 2, 48, 4, 1, 100, 3, 48⟩ [] * (1 + 3) :=
  ⟨(penalty_factor_spec ⟨240, 168, 2, 48, 4, 1, 100, 3, 48⟩ [] 49).1
      (by show |(49:ℚ) - 48| ≤ 3; norm_num),
   (penalty_factor_spec ⟨240, 168, 2, 48, 4, 1, 100, 3, 48⟩ [] 52).2.1
      (by show (3:ℚ) < |52 - 48|; norm_num) (by show (48:ℚ) < 52; norm_num),
   (penalty_factor_spec ⟨240, 168, 2, 48, 4, 1, 100, 3, 48⟩ [] 44).2.2
      (by show (3:ℚ) < |44 - 48|; norm_num) (by show (44:ℚ) < 48; norm_num)⟩

/-- C7: the total order cost is never subtracted from cumulative revenue:
placing a periodic order and handling an order arrival leave the beneficio
accumulator unchanged, and the reported total profit is exactly beneficio. -/
theorem order_cost_not_subtracted (s : SimState) (lt : ℚ) (od : OrderData) :
    (placePeriodicOrder s lt).beneficio = s.beneficio ∧
    (handleOrderArrival s od).beneficio = s.beneficio ∧
    (∀ st, getStatistics s = Except.ok st → st.total_profit = s.beneficio) := by
  refine ⟨rfl, rfl, ?_⟩
  intro st h
  unfold getStatistics at h
  by_cases h1 : s.client_satisfied + s.client_not_satisfied = 0
  · rw [if_pos h1] at h; exact absurd h (by simp)
  · rw [if_neg h1] at h
    by_cases h2 : s.products.any fun p => p.history.level.isEmpty
    · rw [if_pos h2] at h; exact absurd h (by simp)
    · rw [if_neg h2] at h
      have hok := Except.ok.inj h
      rw [← hok]

/-- C7 witness: a state with one satisfied customer whose statistics succeed
and report its beneficio as the total profit. -/
theorem order_cost_not_subtracted_witness :
    (Stats.mk 0 1 []).total_profit =
      ({ initState ⟨240, 168, 2, 48, 4, 1, 100, 3, 48⟩ [] with
        client_satisfied := 1 } : SimState).beneficio :=
  (order_cost_not_subtracted
    ({ initState ⟨240, 168, 2, 48, 4, 1, 100, 3, 48⟩ [] with
        client_satisfied := 1 }) 0 ⟨[], 0⟩).2.2 (Stats.mk 0 1 [])
    (by norm_num [getStatistics, initState])

/-- C10: the holding-cost accumulator stays exactly zero: both handlers
append the current clock time to the time-point log before the reorder
check, so every holding-cost increment multiplies by a zero elapsed factor,
and any run from the initial state keeps the accumulator at zero. -/
theorem holding_total_always_zero (s : SimState) (o : Oracle)
    (config : SimConfig) (products_config : List (String × ProductConfig))
    (first_arrival : ℚ) (os : List Oracle) :
    (processNextEvent s o).holding_total = s.holding_total ∧
    (os.foldl runStep
      (initializeSimulation (initState config products_config)
        first_arrival).2).holding_total = 0 := by
  refine ⟨processNextEvent_holding s o, ?_⟩
  rw [foldl_runStep_holding, initializeSimulation_holding]
  rfl

/-- C2 counterexample: a first arrival exactly at the horizon does not make
initialization fail; the source compares with a strict greater-than, so the
claimed failure on equality is wrong. -/
theorem initialize_at_horizon_counterexample :
    (initState ⟨10, 168, 2, 48, 4, 1, 100, 3, 48⟩ []).config.max_time = 10 ∧
    (initializeSimulation
      (initState ⟨10, 168, 2, 48, 4, 1, 100, 3, 48⟩ []) 10).1 = true := by
  decide

/-- C2 amended: initialization fails, leaving the state untouched, exactly
when the sampled first interarrival time is strictly greater than the
horizon; otherwise it succeeds and enqueues the first customer arrival (in
particular a first arrival exactly at the horizon succeeds). -/
theorem initialize_fails_iff_strict (s : SimState) (fa : ℚ) :
    ((initializeSimulation s fa).1 = false ↔ s.config.max_time < fa) ∧
    ((initializeSimulation s fa).1 = false → (initializeSimulation s fa).2 = s) ∧
    ((initializeSimulation s fa).1 = true → (initializeSimulation s fa).2.eventQueue =
      addEvent s.eventQueue ⟨fa, EventType.customerArrival, none⟩) := by
  unfold initializeSimulation
  by_cases h : fa > s.config.max_time
  · rw [if_pos h]
    exact ⟨⟨fun _ => h, fun _ => rfl⟩, fun _ => rfl, fun hc => absurd hc (by simp)⟩
  · rw [if_neg h]
    exact ⟨⟨fun hc => absurd hc (by simp), fun hlt => absurd hlt h⟩,
      fun hc => absurd hc (by simp), fun _ => rfl⟩

/-- C2 witness: failing initialization at first arrival 11 against horizon
10 leaves the state unchanged; succeeding initialization at 5 enqueues the
arrival. -/
theorem initialize_fails_iff_strict_witness :
    (initializeSimulation
      (initState ⟨10, 168, 2, 48, 4, 1, 100, 3, 48⟩ []) 11).2 =
      initState ⟨10, 168, 2, 48, 4, 1, 100, 3, 48⟩ [] ∧
    (initializeSimulation
      (initState ⟨10, 168, 2, 48, 4, 1, 100, 3, 48⟩ []) 5).2.eventQueue =
      addEvent (initState ⟨10, 168, 2, 48, 4, 1, 100, 3, 48⟩ []).eventQueue
        ⟨5, EventType.customerArrival, none⟩ :=
  ⟨(initialize_fails_iff_strict
      (initState ⟨10, 168, 2, 48, 4, 1, 100, 3, 48⟩ []) 11).2.1 (by decide),
   (initialize_fails_iff_strict
      (initState ⟨10, 168, 2, 48, 4, 1, 100, 3, 48⟩ []) 5).2.2 (by decide)⟩

/-- C3 counterexample: with zero counted customers the implemented
statistics raise the numeric division error, not the distinct
StatisticsUndefined signal the claim asserts. -/
theorem statistics_zero_customers_counterexample :
    getStatistics (initState ⟨240, 168, 2, 48, 4, 1, 100, 3, 48⟩ []) =
      Except.error PyError.zeroDivisionError ∧
    getStatisticsSpec (initState ⟨240, 168, 2, 48, 4, 1, 100, 3, 48⟩ []) =
      Except.error PyError.statisticsUndefined ∧
    (Except.error PyError.zeroDivisionError : Except PyError Stats) ≠
      Except.error PyError.statisticsUndefined := by
  refine ⟨rfl, rfl, ?_⟩
  simp

/-- C3 amended: with both counters zero get_statistics raises the numeric
division-by-zero error; with at least one counted customer it returns
statistics whose satisfied ratio is satisfied over the total count. -/
theorem statistics_ratio_spec (s : SimState) :
    (s.client_satisfied + s.client_not_satisfied = 0 →
      getStatistics s = Except.error PyError.zeroDivisionError) ∧
    (∀ st, getStatistics s = Except.ok st →
      0 < s.client_satisfied + s.client_not_satisfied ∧
      st.satisfied_customers_ratio =
        (s.client_satisfied : ℚ) /
          ((s.client_satisfied : ℚ) + (s.client_not_satisfied : ℚ))) := by
  constructor
  · intro h
    unfold getStatistics
    rw [if_pos h]
  · intro st h
    unfold getStatistics at h
    by_cases h1 : s.client_satisfied + s.client_not_satisfied = 0
    · rw [if_pos h1] at h; exact absurd h (by simp)
    · rw [if_neg h1] at h
      by_cases h2 : s.products.any fun p => p.history.level.isEmpty
      · rw [if_pos h2] at h; exact absurd h (by simp)
      · rw [if_neg h2] at h
        have hok := Except.ok.inj h
        exact ⟨by omega, by rw [← hok]⟩

/-- C1 counterexample: a shortage hitting a product whose level is already
zero leaves the cumulative lost-revenue counter unchanged, instead of
increasing it by demand times unit price as the claim asserts for every
shortage. -/
theorem shortage_zero_level_counterexample :
    (mkProduct "prod1" ⟨0, 10, 2, [5], [1], 1, 2, 600⟩).level < 5 ∧
    (handleShortage 1 0 0 (mkProduct "prod1" ⟨0, 10, 2, [5], [1], 1, 2, 600⟩)
      5).product.history.perdidas = 0 ∧
    (handleShortage 1 0 0 (mkProduct "prod1" ⟨0, 10, 2, [5], [1], 1, 2, 600⟩)
      5).beneficio = 0 ∧
    (mkProduct "prod1" ⟨0, 10, 2, [5], [1], 1, 2, 600⟩).history.perdidas +
      ((5 : ℚ) - ((mkProduct "prod1" ⟨0, 10, 2, [5], [1], 1, 2, 600⟩).level : ℚ)) *
        (mkProduct "prod1" ⟨0, 10, 2, [5], [1], 1, 2, 600⟩).price = 10 ∧
    (0 : ℚ) ≠ 10 := by
  refine ⟨by decide, rfl, rfl, ?_, by norm_num⟩
  show (0 : ℚ) + ((5 : ℚ) - ((0 : ℤ) : ℚ)) * 2 = 10
  norm_num

/-- C1 amended: for a shortage the unsatisfied counter increments and the
clock time is appended to the stockout log unconditionally; the partial
revenue, the lost-revenue accrual of (demand - level) times unit price, the
conservation of demand times unit price, and the zeroing of the level all
happen exactly when some stock remains, while a shortage at level zero
leaves revenue, lost revenue and level unchanged. -/
theorem shortage_spec (time beneficio : ℚ) (ns : ℕ) (p : Product) (demand : ℤ)
    (hshort : p.level < demand) :
    (handleShortage time beneficio ns p demand).client_not_satisfied = ns + 1 ∧
    (handleShortage time beneficio ns p demand).product.history.sin_inventario =
      p.history.sin_inventario ++ [time] ∧
    (0 < p.level →
      (handleShortage time beneficio ns p demand).beneficio =
        beneficio + (p.level : ℚ) * p.price ∧
      (handleShortage time beneficio ns p demand).product.history.perdidas =
        p.history.perdidas + ((demand : ℚ) - (p.level : ℚ)) * p.price ∧
      ((handleShortage time beneficio ns p demand).beneficio - beneficio) +
        ((handleShortage time beneficio ns p demand).product.history.perdidas -
          p.history.perdidas) = (demand : ℚ) * p.price ∧
      (handleShortage time beneficio ns p demand).product.level = 0) ∧
    (p.level ≤ 0 →
      (handleShortage time beneficio ns p demand).beneficio = beneficio ∧
      (handleShortage time beneficio ns p demand).product.history.perdidas =
        p.history.perdidas ∧
      (handleShortage time beneficio ns p demand).product.level = p.level) := by
  have hcns : (handleShortage time beneficio ns p demand).client_not_satisfied =
      ns + 1 := by
    unfold handleShortage; dsimp only; split <;> rfl
  have hsin : (handleShortage time beneficio ns p demand).product.history.sin_inventario =
      p.history.sin_inventario ++ [time] := by
    unfold handleShortage; dsimp only; split
    · rw [(updateLevel_frame _ _).1]
    · rfl
  refine ⟨hcns, hsin, ?_, ?_⟩
  · intro h
    have hben : (handleShortage time beneficio ns p demand).beneficio =
        beneficio + (p.level : ℚ) * p.price := by
      unfold handleShortage; dsimp only; rw [if_pos h]
    have hperd : (handleShortage time beneficio ns p demand).product.history.perdidas =
        p.history.perdidas + ((demand : ℚ) - (p.level : ℚ)) * p.price := by
      unfold handleShortage; dsimp only; rw [if_pos h]; dsimp only
      rw [(updateLevel_frame _ _).2.1]
      dsimp only
      push_cast
      ring
    have hlev : (handleShortage time beneficio ns p demand).product.level = 0 := by
      unfold handleShortage; dsimp only; rw [if_pos h]; dsimp only
      rw [updateLevel_level]
      dsimp only
      simp
    refine ⟨hben, hperd, ?_, hlev⟩
    rw [hben, hperd]
    ring
  · intro h
    have hnot : ¬ 0 < p.level := not_lt.2 h
    refine ⟨?_, ?_, ?_⟩
    · unfold handleShortage; dsimp only; rw [if_neg hnot]
    · unfold handleShortage; dsimp only; rw [if_neg hnot]
    · unfold handleShortage; dsimp only; rw [if_neg hnot]

/-- C1 witness: a shortage with three units on hand against a demand of five
at unit price two, and a shortage at level zero. -/
theorem shortage_spec_witness :
    ((handleShortage 1 0 0 (mkProduct "prod1" ⟨3, 10, 2, [5], [1], 1, 2, 600⟩)
        5).beneficio = 0 +
        (((mkProduct "prod1" ⟨3, 10, 2, [5], [1], 1, 2, 600⟩).level : ℚ)) *
          (mkProduct "prod1" ⟨3, 10, 2, [5], [1], 1, 2, 600⟩).price ∧
      (handleShortage 1 0 0 (mkProduct "prod1" ⟨3, 10, 2, [5], [1], 1, 2, 600⟩)
        5).product.history.perdidas =
        (mkProduct "prod1" ⟨3, 10, 2, [5], [1], 1, 2, 600⟩).history.perdidas +
        (((5 : ℤ) : ℚ) -
          ((mkProduct "prod1" ⟨3, 10, 2, [5], [1], 1, 2, 600⟩).level : ℚ)) *
          (mkProduct "prod1" ⟨3, 10, 2, [5], [1], 1, 2, 600⟩).price ∧
      ((handleShortage 1 0 0 (mkProduct "prod1" ⟨3, 10, 2, [5], [1], 1, 2, 600⟩)
        5).beneficio - 0) +
        ((handleShortage 1 0 0 (mkProduct "prod1" ⟨3, 10, 2, [5], [1], 1, 2, 600⟩)
          5).product.history.perdidas -
          (mkProduct "prod1" ⟨3, 10, 2, [5], [1], 1, 2, 600⟩).history.perdidas) =
        ((5 : ℤ) : ℚ) * (mkProduct "prod1" ⟨3, 10, 2, [5], [1], 1, 2, 600⟩).price ∧
      (handleShortage 1 0 0 (mkProduct "prod1" ⟨3, 10, 2, [5], [1], 1, 2, 600⟩)
        5).product.level = 0) ∧
    ((handleShortage 1 0 0 (mkProduct "prod1" ⟨0, 10, 2, [5], [1], 1, 2, 600⟩)
        5).beneficio = 0 ∧
      (handleShortage 1 0 0 (mkProduct "prod1" ⟨0, 10, 2, [5], [1], 1, 2, 600⟩)
        5).product.history.perdidas =
        (mkProduct "prod1" ⟨0, 10, 2, [5], [1], 1, 2, 600⟩).history.perdidas ∧
      (handleShortage 1 0 0 (mkProduct "prod1" ⟨0, 10, 2, [5], [1], 1, 2, 600⟩)
        5).product.level =
        (mkProduct "prod1" ⟨0, 10, 2, [5], [1], 1, 2, 600⟩).level) :=
  ⟨(shortage_spec 1 0 0 (mkProduct "prod1" ⟨3, 10, 2, [5], [1], 1, 2, 600⟩) 5
      (by decide)).2.2.1 (by decide),
   (shortage_spec 1 0 0 (mkProduct "prod1" ⟨0, 10, 2, [5], [1], 1, 2, 600⟩) 5
      (by decide)).2.2.2 (by decide)⟩

/-- C4: the loop dispatches only events strictly before the horizon: when
the loop guard holds the popped event's time is strictly below the horizon
and in particular never equal to it, and the handler enqueues the next
customer arrival exactly when its time is strictly below the horizon. -/
theorem horizon_boundary_exclusive (q : List Event) (m : ℚ) (e : Event)
    (q2 : List Event) (s : SimState) (demands : List ℤ) (delta : ℚ) :
    (simulationActive q m → getNextEvent q = some (e, q2) →
      e.time < m ∧ e.time ≠ m) ∧
    (s.time + delta < s.config.max_time →
      (handleCustomerArrival s demands delta).eventQueue =
        addEvent s.eventQueue ⟨s.time + delta, EventType.customerArrival, none⟩) ∧
    (s.config.max_time ≤ s.time + delta →
      (handleCustomerArrival s demands delta).eventQueue = s.eventQueue) := by
  refine ⟨?_, ?_, ?_⟩
  · intro hact hpop
    have hact2 : peekNextTime q ≠ ⊤ ∧ peekNextTime q < (m : WithTop ℚ) := hact
    obtain ⟨hne, hlt⟩ := hact2
    cases q with
    | nil => exact absurd rfl hne
    | cons x t =>
      have hex : e = x := heappop_fst x t e q2 hpop
      have hxt : (x.time : WithTop ℚ) < (m : WithTop ℚ) := hlt
      have hlt2 : x.time < m := by exact_mod_cast hxt
      rw [hex]
      exact ⟨hlt2, ne_of_lt hlt2⟩
  · intro h
    unfold handleCustomerArrival
    dsimp only
    rw [if_pos h]
  · intro h
    unfold handleCustomerArrival
    dsimp only
    rw [if_neg (not_lt.2 h)]

/-- C4 witness: an event at time 3 against horizon 10 is dispatched, the
next arrival at 0 + 4 is enqueued against horizon 10, and the next arrival
at 0 + 12 is dropped. -/
theorem horizon_boundary_exclusive_witness :
    ((Event.mk 3 EventType.customerArrival none).time < 10 ∧
      (Event.mk 3 EventType.customerArrival none).time ≠ 10) ∧
    (handleCustomerArrival (initState ⟨10, 168, 2, 48, 4, 1, 100, 3, 48⟩ []) [] 4).eventQueue =
      addEvent (initState ⟨10, 168, 2, 48, 4, 1, 100, 3, 48⟩ []).eventQueue
        ⟨(initState ⟨10, 168, 2, 48, 4, 1, 100, 3, 48⟩ []).time + 4,
          EventType.customerArrival, none⟩ ∧
    (handleCustomerArrival (initState ⟨10, 168, 2, 48, 4, 1, 100, 3, 48⟩ []) [] 12).eventQueue =
      (initState ⟨10, 168, 2, 48, 4, 1, 100, 3, 48⟩ []).eventQueue :=
  ⟨(horizon_boundary_exclusive [Event.mk 3 EventType.customerArrival none] 10
      (Event.mk 3 EventType.customerArrival none) []
      (initState ⟨10, 168, 2, 48, 4, 1, 100, 3, 48⟩ []) [] 4).1
      (by constructor <;> decide) (by decide),
   (horizon_boundary_exclusive [Event.mk 3 EventType.customerArrival none] 10
      (Event.mk 3 EventType.customerArrival none) []
      (initState ⟨10, 168, 2, 48, 4, 1, 100, 3, 48⟩ []) [] 4).2.1
      (by show (0:ℚ) + 4 < 10; norm_num),
   (horizon_boundary_exclusive [Event.mk 3 EventType.customerArrival none] 10
      (Event.mk 3 EventType.customerArrival none) []
      (initState ⟨10, 168, 2, 48, 4, 1, 100, 3, 48⟩ []) [] 12).2.2
      (by show (10:ℚ) ≤ 0 + 12; norm_num)⟩

/-- C6: for a queue built from any sequence of insertions, a pop returns a
minimum-time element, the queue before the pop is a permutation of the
popped element with the remaining queue, a second pop returns a later or
equal time and is itself minimal over the remaining elements, peeking the
empty queue returns plus infinity, and popping the empty queue returns the
sentinel. -/
theorem eventQueue_pop_min_spec (xs : List Event) (e : Event) (q : List Event)
    (hpop : getNextEvent (xs.foldl addEvent []) = some (e, q)) :
    (∀ y ∈ xs, e.time ≤ y.time) ∧ List.Perm xs (e :: q) ∧
    (∀ e2 q2, getNextEvent q = some (e2, q2) →
      e.time ≤ e2.time ∧ (∀ y ∈ q, e2.time ≤ y.time) ∧ List.Perm q (e2 :: q2)) ∧
    peekNextTime ([] : List Event) = ⊤ ∧
    getNextEvent ([] : List Event) = none := by
  have hempty : HeapInv ([] : List Event) := by
    intro i h1 h2; simp at h2
  obtain ⟨hq1, hq2⟩ := foldl_heappush_correct xs [] hempty
  have hperm0 : List.Perm (xs.foldl heappush []) xs := by simpa using hq2
  have hpop2 : heappop (xs.foldl heappush []) = some (e, q) := hpop
  obtain ⟨hm1, hm2, hm3⟩ := heappop_min (xs.foldl heappush []) hq1 e q hpop2
  refine ⟨?_, ?_, ?_, rfl, rfl⟩
  · intro y hy
    exact hm1 y (hperm0.mem_iff.2 hy)
  · exact hperm0.symm.trans hm3
  · intro e2 q2 hpopq
    obtain ⟨hn1, hn2, hn3⟩ := heappop_min q hm2 e2 q2 hpopq
    refine ⟨?_, hn1, hn3⟩
    have he2q : e2 ∈ q := hn3.mem_iff.2 (List.mem_cons_self e2 q2)
    exact hm1 e2 (hm3.mem_iff.2 (List.mem_cons_of_mem e he2q))

/-- C6 witness: inserting times 3, 1, 2 and popping twice returns 1 then 2. -/
theorem eventQueue_pop_min_spec_witness :
    (∀ y ∈ [Event.mk 3 EventType.customerArrival none,
        Event.mk 1 EventType.customerArrival none,
        Event.mk 2 EventType.customerArrival none],
      (Event.mk 1 EventType.customerArrival none).time ≤ y.time) ∧
    List.Perm [Event.mk 3 EventType.customerArrival none,
        Event.mk 1 EventType.customerArrival none,
        Event.mk 2 EventType.customerArrival none]
      (Event.mk 1 EventType.customerArrival none ::
        [Event.mk 2 EventType.customerArrival none,
         Event.mk 3 EventType.customerArrival none]) ∧
    (∀ e2 q2, getNextEvent [Event.mk 2 EventType.customerArrival none,
        Event.mk 3 EventType.customerArrival none] = some (e2, q2) →
      (Event.mk 1 EventType.customerArrival none).time ≤ e2.time ∧
      (∀ y ∈ [Event.mk 2 EventType.customerArrival none,
          Event.mk 3 EventType.customerArrival none], e2.time ≤ y.time) ∧
      List.Perm [Event.mk 2 EventType.customerArrival none,
        Event.mk 3 EventType.customerArrival none] (e2 :: q2)) ∧
    peekNextTime ([] : List Event) = ⊤ ∧
    getNextEvent ([] : List Event) = none :=
  eventQueue_pop_min_spec
    [Event.mk 3 EventType.customerArrival none,
     Event.mk 1 EventType.customerArrival none,
     Event.mk 2 EventType.customerArrival none]
    (Event.mk 1 EventType.customerArrival none)
    [Event.mk 2 EventType.customerArrival none,
     Event.mk 3 EventType.customerArrival none] (by decide)

/-- C3 witness: one satisfied customer yields a defined ratio of one. -/
theorem statistics_ratio_spec_witness :
    0 < ({ initState ⟨240, 168, 2, 48, 4, 1, 100, 3, 48⟩ [] with
        client_satisfied := 1 } : SimState).client_satisfied +
      ({ initState ⟨240, 168, 2, 48, 4, 1, 100, 3, 48⟩ [] with
        client_satisfied := 1 } : SimState).client_not_satisfied ∧
    (Stats.mk 0 1 []).satisfied_customers_ratio =
      (({ initState ⟨240, 168, 2, 48, 4, 1, 100, 3, 48⟩ [] with
        client_satisfied := 1 } : SimState).client_satisfied : ℚ) /
        ((({ initState ⟨240, 168, 2, 48, 4, 1, 100, 3, 48⟩ [] with
          client_satisfied := 1 } : SimState).client_satisfied : ℚ) +
         (({ initState ⟨240, 168, 2, 48, 4, 1, 100, 3, 48⟩ [] with
          client_satisfied := 1 } : SimState).client_not_satisfied : ℚ)) :=
  (statistics_ratio_spec
    { initState ⟨240, 168, 2, 48, 4, 1, 100, 3, 48⟩ [] with
      client_satisfied := 1 }).2 (Stats.mk 0 1 [])
    (by norm_num [getStatistics, initState])

end InventorySim
